import Mathlib

/-!
Shallow embedding of the chiavdf fallback prover
(crates/chiavdf-fast/native/chiavdf_fast_fallback.cpp).

The file under verification implements `prove_one_weso_slow` — the slow,
portable Wesolowski VDF prover — together with its extern "C" entry points
and the thread-local / process-wide diagnostic state.

The group primitives (CreateDiscriminant, root, DeserializeForm,
form::from_abd, nudupl_form, PulmarkReducer::reduce, GenerateWesolowski,
SerializeForm, ApproximateParameters) are external collaborators declared
in other libraries; the spec treats them as interfaces.  They are modelled
here as an environment record `ProverEnv` of pure functions, each returning
`Except Unit _` so that a call can raise an exception (the C++ code wraps
the whole body in try/catch).  Fixed-size machine integers are modelled as
`Nat`/`Int`; the only place where 64-bit wrap-around can matter (the
`size_vec` ceiling computation) is modelled explicitly with `% 2^64` in
`sizeVec`.  Null pointers are modelled as `none : Option (List Nat)`.

Besides the observable result, the model returns the sequence of progress
callback invocations (`trace`), a coarse event log marking which stages of
the operation executed and in which order (`events`), and the thread-local
diagnostic state after the call (`state`).
-/

namespace ChiavdfFallback

/-- Stage markers, recorded in execution order: discriminant derivation
entered, input-element deserialization entered, all T squarings completed,
Wesolowski proof element produced, reference-y validation block executed. -/
inductive ProveEvent where
  | derive
  | deser
  | squared
  | proved
  | checked
  deriving DecidableEq, Repr

/-- Mirror of the thread-local `LastStreamingParameters` struct. -/
structure LastStreamingParameters where
  k : Nat
  l : Nat
  tuned : Bool
  set : Bool
  deriving DecidableEq, Repr

/-- Default-constructed `LastStreamingParameters` (thread-local initial value). -/
def initParams : LastStreamingParameters := ⟨0, 0, false, false⟩

/-- Mirror of the thread-local `LastStreamingStats` struct. -/
structure LastStreamingStats where
  checkpoint_total_ns : Nat
  checkpoint_event_total_ns : Nat
  finalize_total_ns : Nat
  checkpoint_calls : Nat
  bucket_updates : Nat
  set : Bool
  deriving DecidableEq, Repr

/-- Default-constructed `LastStreamingStats`. -/
def initStats : LastStreamingStats := ⟨0, 0, 0, 0, 0, false⟩

/-- The two thread-local variables of the translation unit. -/
structure ThreadState where
  params : LastStreamingParameters
  stats : LastStreamingStats
  deriving DecidableEq, Repr

/-- Thread state before any call on the thread. -/
def initThread : ThreadState := ⟨initParams, initStats⟩

/-- The two process-wide atomics of the translation unit. -/
structure GlobalConfig where
  bucket_memory_budget_bytes : Nat
  streaming_stats_enabled : Bool
  deriving DecidableEq, Repr

/-- Initial process-wide configuration. -/
def initConfig : GlobalConfig := ⟨0, false⟩

/-- External group/number-theory primitives consumed by the prover, over an
abstract form type `F`.  Each fallible primitive returns `Except Unit _`
(`.error` models a thrown C++ exception).
`approximateParameters T` yields the raw `(k, l)` pair written by
`ApproximateParameters(num_iterations, l, k)` before any clamping. -/
structure ProverEnv (F : Type) where
  createDiscriminant : List Nat → Nat → Except Unit Int
  root4 : Int → Except Unit Int
  deserializeForm : Int → List Nat → Except Unit F
  fromAbd : F → Int → Except Unit F
  numBits : Int → Nat
  approximateParameters : Nat → Int × Int
  nudupl : F → Int → Int → Except Unit F
  reduce : F → Except Unit F
  generateWesolowski : F → F → Int → List F → Nat → Nat → Nat → Except Unit F
  serializeForm : F → Nat → Except Unit (List Nat)

/-- Observable outcome of one proving call: the returned byte buffer
(`none` models `ChiavdfByteArray{nullptr, 0}`), the progress counts
reported to the callback, the stage event log, and the thread-local
state after the call. -/
structure ProveOutput where
  result : Option (List Nat)
  trace : List Nat
  events : List ProveEvent
  state : ThreadState
  deriving DecidableEq, Repr

/-- Clamping applied to each tuner output: `if (v <= 0) v = 1;`. -/
def clampPos (n : Int) : Int := if n ≤ 0 then 1 else n

/-- The `(k, l)` iteration plan actually used for iteration count `T`:
the heuristic's outputs, each clamped to be positive. -/
def tunedPlan {F : Type} (env : ProverEnv F) (T : Nat) : Int × Int :=
  (clampPos (env.approximateParameters T).1, clampPos (env.approximateParameters T).2)

/-- One loop iteration's arithmetic: `nudupl_form(y, y, D, L)` followed by
`reducer.reduce(y)`. -/
def stepE {F : Type} (env : ProverEnv F) (D L : Int) (y : F) : Except Unit F :=
  match env.nudupl y D L with
  | .error e => .error e
  | .ok y1 => env.reduce y1

/-- `n`-fold squaring+reduction, propagating the first exception. -/
def iterE {F : Type} (env : ProverEnv F) (D L : Int) : Nat → F → Except Unit F
  | 0, y => .ok y
  | n + 1, y =>
    match stepE env D L y with
    | .error e => .error e
    | .ok y1 => iterE env D L n y1

/-- The checkpoint sequence the loop records: the running element before
the `j`-th squaring, for each `j < T` with `j % kl = 0`. -/
def cpsOf {F : Type} (env : ProverEnv F) (D L : Int) (kl T : Nat) (y0 : F) : List F :=
  (List.range T).filterMap fun j =>
    if j % kl = 0 then (iterE env D L j y0).toOption else none

/-- The `size_vec` allocation count, computed in `uint64_t` arithmetic:
`(num_iterations + kl - 1) / kl` with 64-bit wrap-around of the sum. -/
def sizeVec (T kl : Nat) : Nat := ((T + kl - 1) % 2 ^ 64) / kl

/-- A byte-buffer argument is rejected when the pointer is null or the
length is zero. -/
def byteArgMissing : Option (List Nat) → Bool
  | none => true
  | some bs => bs.isEmpty

/-- Thread-local state immediately after the parameter-selection block
(lines 109–113): the clamped plan with `tuned = false`, `set = true`, and
the stats struct reset to its default-constructed value. -/
def stAfterTuning {F : Type} (env : ProverEnv F) (T : Nat) : ThreadState :=
  ⟨⟨(tunedPlan env T).1.toNat, (tunedPlan env T).2.toNat, false, true⟩, initStats⟩

/-- The squaring loop (lines 119–134).  `rem` counts remaining iterations
and `i` is the loop counter (`i + rem = T` at every call from the top
level).  Per iteration: record a checkpoint when `i % kl = 0`, then square
and reduce (either may raise), then report `i + 1` to the progress callback
when a callback is present, the cadence is nonzero, and `i + 1` is `T` or a
multiple of the cadence.  The first component is the arithmetic outcome;
the second is the trace of progress reports made so far (kept even when an
exception aborts the loop). -/
def squaringLoop {F : Type} (env : ProverEnv F) (D L : Int) (kl T P : Nat) (cb : Bool) :
    Nat → Nat → F → List F → List Nat → Except Unit (F × List F) × List Nat
  | 0, _, y, cps, tr => (.ok (y, cps), tr)
  | rem + 1, i, y, cps, tr =>
    match env.nudupl y D L with
    | .error e => (.error e, tr)
    | .ok y1 =>
      match env.reduce y1 with
      | .error e => (.error e, tr)
      | .ok y2 =>
        squaringLoop env D L kl T P cb rem (i + 1) y2
          (if i % kl = 0 then cps ++ [y] else cps)
          (if cb = true ∧ P ≠ 0 ∧ (i + 1 = T ∨ (i + 1) % P = 0) then tr ++ [i + 1] else tr)

/-- The try-block of `prove_one_weso_slow` (lines 82–171), after input
validation.  The first component is `.error` when a C++ exception escapes
the block (to be caught by the caller), `.ok none` for the explicit
`empty_result()` returns inside the block, and `.ok (some bytes)` on
success.  The remaining components are the progress trace, the stage event
log, and the thread-local state as left by the block. -/
def proveTry {F : Type} (env : ProverEnv F) (challenge x_s : List Nat)
    (y_ref : Option (List Nat)) (check_y_ref : Bool)
    (bits T P : Nat) (cb : Bool) (st : ThreadState) :
    Except Unit (Option (List Nat)) × List Nat × List ProveEvent × ThreadState :=
  match env.createDiscriminant challenge bits with
  | .error e => (.error e, [], [.derive], st)
  | .ok D =>
    match env.root4 (-D) with
    | .error e => (.error e, [], [.derive], st)
    | .ok L =>
      match env.deserializeForm D x_s with
      | .error e => (.error e, [], [.derive, .deser], st)
      | .ok x =>
        match env.fromAbd x D with
        | .error e => (.error e, [], [.derive, .deser], st)
        | .ok y0 =>
          if (tunedPlan env T).1 * (tunedPlan env T).2 ≤ 0 then
            (.ok none, [], [.derive, .deser], st)
          else
            match squaringLoop env D L ((tunedPlan env T).1 * (tunedPlan env T).2).toNat
                T P cb T 0 y0 [] [] with
            | (.error e, tr) => (.error e, tr, [.derive, .deser], stAfterTuning env T)
            | (.ok (yF, cps), tr) =>
              match env.generateWesolowski yF x D cps T
                  (tunedPlan env T).1.toNat (tunedPlan env T).2.toNat with
              | .error e => (.error e, tr, [.derive, .deser, .squared], stAfterTuning env T)
              | .ok pf =>
                match env.serializeForm yF (env.numBits D) with
                | .error e =>
                  (.error e, tr, [.derive, .deser, .squared, .proved], stAfterTuning env T)
                | .ok ySer =>
                  match env.serializeForm pf (env.numBits D) with
                  | .error e =>
                    (.error e, tr, [.derive, .deser, .squared, .proved], stAfterTuning env T)
                  | .ok pSer =>
                    if ySer = [] ∨ pSer = [] then
                      (.ok none, tr, [.derive, .deser, .squared, .proved], stAfterTuning env T)
                    else if check_y_ref then
                      match y_ref with
                      | none =>
                        (.ok none, tr, [.derive, .deser, .squared, .proved, .checked],
                          stAfterTuning env T)
                      | some r =>
                        if r = [] then
                          (.ok none, tr, [.derive, .deser, .squared, .proved, .checked],
                            stAfterTuning env T)
                        else if ySer.length ≠ r.length then
                          (.ok none, tr, [.derive, .deser, .squared, .proved, .checked],
                            stAfterTuning env T)
                        else if ySer ≠ r then
                          (.ok none, tr, [.derive, .deser, .squared, .proved, .checked],
                            stAfterTuning env T)
                        else
                          (.ok (some (ySer ++ pSer)), tr,
                            [.derive, .deser, .squared, .proved, .checked], stAfterTuning env T)
                    else
                      (.ok (some (ySer ++ pSer)), tr,
                        [.derive, .deser, .squared, .proved], stAfterTuning env T)

/-- `prove_one_weso_slow` (lines 62–172): input validation, then the
try-block with every escaping exception converted to `empty_result()`.
The process-wide configuration is in scope for the call (last argument)
but, as in the source, the body never reads it. -/
def prove_one_weso_slow {F : Type} (env : ProverEnv F)
    (challenge x_s y_ref : Option (List Nat)) (check_y_ref : Bool)
    (discriminant_size_bits num_iterations progress_interval : Nat)
    (has_progress_cb : Bool) (st : ThreadState) (_cfg : GlobalConfig) : ProveOutput :=
  if byteArgMissing challenge || byteArgMissing x_s then ⟨none, [], [], st⟩
  else if num_iterations = 0 ∨ discriminant_size_bits = 0 then ⟨none, [], [], st⟩
  else
    match proveTry env (challenge.getD []) (x_s.getD []) y_ref check_y_ref
        discriminant_size_bits num_iterations progress_interval has_progress_cb st with
    | (.error _, tr, ev, stOut) => ⟨none, tr, ev, stOut⟩
    | (.ok r, tr, ev, stOut) => ⟨r, tr, ev, stOut⟩

/-- `chiavdf_set_bucket_memory_budget_bytes` (lines 175–177). -/
def chiavdf_set_bucket_memory_budget_bytes (g : GlobalConfig) (bytes : Nat) : GlobalConfig :=
  ⟨bytes % 2 ^ 64, g.streaming_stats_enabled⟩

/-- `chiavdf_set_enable_streaming_stats` (lines 179–182): stores the flag
and resets the calling thread's stats struct. -/
def chiavdf_set_enable_streaming_stats (g : GlobalConfig) (enable : Bool)
    (st : ThreadState) : GlobalConfig × ThreadState :=
  (⟨g.bucket_memory_budget_bytes, enable⟩, ⟨st.params, initStats⟩)

/-- `chiavdf_get_last_streaming_parameters` (lines 184–195).  The three
booleans model nullness of the out-pointers; the returned pair is the
success flag and, on success, the values written through them. -/
def chiavdf_get_last_streaming_parameters (st : ThreadState)
    (outKNull outLNull outTunedNull : Bool) : Bool × Option (Nat × Nat × Bool) :=
  if outKNull || outLNull || outTunedNull then (false, none)
  else if st.params.set = false then (false, none)
  else (true, some (st.params.k, st.params.l, st.params.tuned))

/-- `chiavdf_get_last_streaming_stats` (lines 197–210): the fallback does
not implement streaming stats and always returns false without touching
the out-pointers. -/
def chiavdf_get_last_streaming_stats (_st : ThreadState) : Bool := false

/-- `chiavdf_prove_one_weso_fast` (lines 212–232). -/
def chiavdf_prove_one_weso_fast {F : Type} (env : ProverEnv F)
    (challenge x_s : Option (List Nat)) (bits T : Nat)
    (st : ThreadState) (cfg : GlobalConfig) : ProveOutput :=
  prove_one_weso_slow env challenge x_s none false bits T 0 false st cfg

/-- `chiavdf_prove_one_weso_fast_with_progress` (lines 234–257). -/
def chiavdf_prove_one_weso_fast_with_progress {F : Type} (env : ProverEnv F)
    (challenge x_s : Option (List Nat)) (bits T P : Nat) (cb : Bool)
    (st : ThreadState) (cfg : GlobalConfig) : ProveOutput :=
  prove_one_weso_slow env challenge x_s none false bits T P cb st cfg

/-- `chiavdf_prove_one_weso_fast_streaming` (lines 259–281). -/
def chiavdf_prove_one_weso_fast_streaming {F : Type} (env : ProverEnv F)
    (challenge x_s y_ref : Option (List Nat)) (bits T : Nat)
    (st : ThreadState) (cfg : GlobalConfig) : ProveOutput :=
  prove_one_weso_slow env challenge x_s y_ref true bits T 0 false st cfg

/-- `chiavdf_prove_one_weso_fast_streaming_with_progress` (lines 283–308). -/
def chiavdf_prove_one_weso_fast_streaming_with_progress {F : Type} (env : ProverEnv F)
    (challenge x_s y_ref : Option (List Nat)) (bits T P : Nat) (cb : Bool)
    (st : ThreadState) (cfg : GlobalConfig) : ProveOutput :=
  prove_one_weso_slow env challenge x_s y_ref true bits T P cb st cfg

/-- `chiavdf_prove_one_weso_fast_streaming_getblock_opt` (lines 310–332). -/
def chiavdf_prove_one_weso_fast_streaming_getblock_opt {F : Type} (env : ProverEnv F)
    (challenge x_s y_ref : Option (List Nat)) (bits T : Nat)
    (st : ThreadState) (cfg : GlobalConfig) : ProveOutput :=
  prove_one_weso_slow env challenge x_s y_ref true bits T 0 false st cfg

/-- `chiavdf_prove_one_weso_fast_streaming_getblock_opt_with_progress`
(lines 334–361). -/
def chiavdf_prove_one_weso_fast_streaming_getblock_opt_with_progress {F : Type}
    (env : ProverEnv F) (challenge x_s y_ref : Option (List Nat)) (bits T P : Nat)
    (cb : Bool) (st : ThreadState) (cfg : GlobalConfig) : ProveOutput :=
  prove_one_weso_slow env challenge x_s y_ref true bits T P cb st cfg

/-- The arithmetic outcome of the try-block, with the progress cadence,
callback, and thread state stripped: used to show the observable result is
a function of (challenge, input element, T, discriminant size) alone. -/
def pureResult {F : Type} (env : ProverEnv F) (challenge x_s : List Nat)
    (y_ref : Option (List Nat)) (check_y_ref : Bool) (bits T : Nat) :
    Except Unit (Option (List Nat)) :=
  match env.createDiscriminant challenge bits with
  | .error e => .error e
  | .ok D =>
    match env.root4 (-D) with
    | .error e => .error e
    | .ok L =>
      match env.deserializeForm D x_s with
      | .error e => .error e
      | .ok x =>
        match env.fromAbd x D with
        | .error e => .error e
        | .ok y0 =>
          if (tunedPlan env T).1 * (tunedPlan env T).2 ≤ 0 then .ok none
          else
            match iterE env D L T y0 with
            | .error e => .error e
            | .ok yF =>
              match env.generateWesolowski yF x D
                  (cpsOf env D L ((tunedPlan env T).1 * (tunedPlan env T).2).toNat T y0) T
                  (tunedPlan env T).1.toNat (tunedPlan env T).2.toNat with
              | .error e => .error e
              | .ok pf =>
                match env.serializeForm yF (env.numBits D) with
                | .error e => .error e
                | .ok ySer =>
                  match env.serializeForm pf (env.numBits D) with
                  | .error e => .error e
                  | .ok pSer =>
                    if ySer = [] ∨ pSer = [] then .ok none
                    else if check_y_ref then
                      match y_ref with
                      | none => .ok none
                      | some r =>
                        if r = [] then .ok none
                        else if ySer.length ≠ r.length then .ok none
                        else if ySer ≠ r then .ok none
                        else .ok (some (ySer ++ pSer))
                    else .ok (some (ySer ++ pSer))

/-- Concrete, everywhere-succeeding instantiation of the external
primitives over `F := Nat`, used to evaluate the model on closed inputs. -/
def natEnv : ProverEnv Nat :=
  ⟨fun _ _ => .ok (-7),
   fun _ => .ok 1,
   fun _ bs => .ok (bs.headD 2),
   fun x _ => .ok x,
   fun _ => 4,
   fun _ => (2, 1),
   fun y _ _ => .ok (y * y % 1000),
   fun y => .ok y,
   fun yF x _ cps T k l => .ok ((yF + x + cps.length + T + k + l) % 1000),
   fun y _ => .ok [y % 256]⟩

/-- Instantiation whose discriminant derivation raises, exercising the
exception path. -/
def errEnv : ProverEnv Nat :=
  ⟨fun _ _ => .error (),
   fun _ => .error (),
   fun _ _ => .error (),
   fun _ _ => .error (),
   fun _ => 0,
   fun _ => (0, 0),
   fun _ _ _ => .error (),
   fun _ => .error (),
   fun _ _ _ _ _ _ _ => .error (),
   fun _ _ => .error ()⟩

/-! ### Loop characterization -/

theorem iterE_succ {F : Type} (env : ProverEnv F) (D L : Int) (n : Nat) {y y2 : F}
    (h : stepE env D L y = .ok y2) : iterE env D L (n + 1) y = iterE env D L n y2 := by
  simp [iterE, h]

theorem iterE_succ_error {F : Type} (env : ProverEnv F) (D L : Int) (n : Nat) {y : F}
    {e : Unit} (h : stepE env D L y = .error e) : iterE env D L (n + 1) y = .error e := by
  simp [iterE, h]

theorem squaringLoop_fst {F : Type} (env : ProverEnv F) (D L : Int) (kl T P : Nat)
    (cb : Bool) :
    ∀ (rem : Nat) (i : Nat) (y : F) (cps : List F) (tr : List Nat),
      (squaringLoop env D L kl T P cb rem i y cps tr).1
        = match iterE env D L rem y with
          | .error e => .error e
          | .ok yF => .ok (yF, cps ++ (List.range rem).filterMap
              (fun j => if (i + j) % kl = 0 then (iterE env D L j y).toOption else none)) := by
  intro rem
  induction rem with
  | zero => intro i y cps tr; simp [squaringLoop, iterE]
  | succ rem ih =>
    intro i y cps tr
    rcases hn : env.nudupl y D L with e | y1
    · have hs : stepE env D L y = .error e := by simp [stepE, hn]
      simp [squaringLoop, hn, iterE_succ_error env D L rem hs]
    · rcases hr : env.reduce y1 with e | y2
      · have hs : stepE env D L y = .error e := by simp [stepE, hn, hr]
        simp [squaringLoop, hn, hr, iterE_succ_error env D L rem hs]
      · have hs : stepE env D L y = .ok y2 := by simp [stepE, hn, hr]
        have hunf : (squaringLoop env D L kl T P cb (rem + 1) i y cps tr).1
            = (squaringLoop env D L kl T P cb rem (i + 1) y2
                (if i % kl = 0 then cps ++ [y] else cps)
                (if cb = true ∧ P ≠ 0 ∧ (i + 1 = T ∨ (i + 1) % P = 0)
                  then tr ++ [i + 1] else tr)).1 := by
          simp [squaringLoop, hn, hr]
        rw [hunf, ih, iterE_succ env D L rem hs]
        rcases hit : iterE env D L rem y2 with e | yF
        · rfl
        · have hmap : (List.range (rem + 1)).filterMap
              (fun j => if (i + j) % kl = 0 then (iterE env D L j y).toOption else none)
              = (if i % kl = 0 then [y] else [])
                ++ (List.range rem).filterMap
                  (fun j => if (i + 1 + j) % kl = 0 then (iterE env D L j y2).toOption
                    else none) := by
            rw [List.range_succ_eq_map, List.filterMap_cons, List.filterMap_map]
            have hcong : ∀ j ∈ List.range rem,
                ((fun j => if (i + j) % kl = 0 then (iterE env D L j y).toOption else none)
                    ∘ Nat.succ) j
                  = (fun j => if (i + 1 + j) % kl = 0 then (iterE env D L j y2).toOption
                      else none) j := by
              intro j _
              have h1 : i + Nat.succ j = i + 1 + j := by omega
              simp only [Function.comp_apply, h1, iterE_succ env D L j hs]
            rw [List.filterMap_congr hcong]
            by_cases hi : i % kl = 0 <;> simp [hi, iterE, Except.toOption]
          rw [hmap]
          by_cases hi : i % kl = 0 <;> simp [hi]

theorem squaringLoop_trace {F : Type} (env : ProverEnv F) (D L : Int) (kl T P : Nat)
    (cb : Bool) :
    ∀ (rem : Nat) (i : Nat) (y yF : F) (cps cpsF : List F) (tr trF : List Nat),
      squaringLoop env D L kl T P cb rem i y cps tr = (.ok (yF, cpsF), trF) →
      trF = tr ++ (List.range rem).filterMap
        (fun j => if cb = true ∧ P ≠ 0 ∧ (i + j + 1 = T ∨ (i + j + 1) % P = 0)
          then some (i + j + 1) else none) := by
  intro rem
  induction rem with
  | zero =>
    intro i y yF cps cpsF tr trF h
    simp only [squaringLoop, Prod.mk.injEq, Except.ok.injEq] at h
    simp [h.2]
  | succ rem ih =>
    intro i y yF cps cpsF tr trF h
    rcases hn : env.nudupl y D L with e | y1
    · simp [squaringLoop, hn] at h
    · rcases hr : env.reduce y1 with e | y2
      · simp [squaringLoop, hn, hr] at h
      · have hunf : squaringLoop env D L kl T P cb (rem + 1) i y cps tr
            = squaringLoop env D L kl T P cb rem (i + 1) y2
                (if i % kl = 0 then cps ++ [y] else cps)
                (if cb = true ∧ P ≠ 0 ∧ (i + 1 = T ∨ (i + 1) % P = 0)
                  then tr ++ [i + 1] else tr) := by
          simp [squaringLoop, hn, hr]
        rw [hunf] at h
        have := ih (i + 1) y2 yF _ cpsF _ trF h
        rw [this]
        have hmap : (List.range (rem + 1)).filterMap
            (fun j => if cb = true ∧ P ≠ 0 ∧ (i + j + 1 = T ∨ (i + j + 1) % P = 0)
              then some (i + j + 1) else none)
            = (if cb = true ∧ P ≠ 0 ∧ (i + 1 = T ∨ (i + 1) % P = 0) then [i + 1] else [])
              ++ (List.range rem).filterMap
                (fun j => if cb = true ∧ P ≠ 0 ∧ (i + 1 + j + 1 = T ∨ (i + 1 + j + 1) % P = 0)
                  then some (i + 1 + j + 1) else none) := by
          rw [List.range_succ_eq_map, List.filterMap_cons, List.filterMap_map]
          have hcong : ∀ j ∈ List.range rem,
              ((fun j => if cb = true ∧ P ≠ 0 ∧ (i + j + 1 = T ∨ (i + j + 1) % P = 0)
                  then some (i + j + 1) else none) ∘ Nat.succ) j
                = (fun j => if cb = true ∧ P ≠ 0
                      ∧ (i + 1 + j + 1 = T ∨ (i + 1 + j + 1) % P = 0)
                    then some (i + 1 + j + 1) else none) j := by
            intro j _
            have h1 : i + Nat.succ j + 1 = i + 1 + j + 1 := by omega
            simp only [Function.comp_apply, h1]
          rw [List.filterMap_congr hcong]
          by_cases hc : cb = true ∧ P ≠ 0 ∧ (i + 1 = T ∨ (i + 1) % P = 0) <;>
            simp [hc]
        rw [hmap]
        by_cases hc : cb = true ∧ P ≠ 0 ∧ (i + 1 = T ∨ (i + 1) % P = 0) <;>
          simp [hc]

/-- The value after `n` squarings, extracted from `iterE` (defaulting to
`y0`; meaningful whenever the chain is known to succeed). -/
def valAt {F : Type} (env : ProverEnv F) (D L : Int) (y0 : F) (n : Nat) : F :=
  ((iterE env D L n y0).toOption).getD y0

theorem iterE_ok_mono {F : Type} (env : ProverEnv F) (D L : Int) :
    ∀ (n : Nat) (y z : F), iterE env D L n y = .ok z →
      ∀ m ≤ n, ∃ w, iterE env D L m y = .ok w := by
  intro n
  induction n with
  | zero =>
    intro y z h m hm
    interval_cases m
    exact ⟨y, rfl⟩
  | succ n ih =>
    intro y z h m hm
    rcases hs : stepE env D L y with e | y1
    · rw [iterE_succ_error env D L n hs] at h
      exact absurd h (by simp)
    · rw [iterE_succ env D L n hs] at h
      rcases m with _ | m
      · exact ⟨y, rfl⟩
      · obtain ⟨w, hw⟩ := ih y1 z h m (by omega)
        exact ⟨w, by rw [iterE_succ env D L m hs]; exact hw⟩

theorem valAt_spec {F : Type} (env : ProverEnv F) (D L : Int) {y0 w : F} {n : Nat}
    (h : iterE env D L n y0 = .ok w) : valAt env D L y0 n = w := by
  simp [valAt, h, Except.toOption]

theorem filterMap_if {α β : Type} (p : α → Prop) [DecidablePred p] (v : α → β) :
    ∀ l : List α,
      l.filterMap (fun a => if p a then some (v a) else none)
        = (l.filter (fun a => p a)).map v := by
  intro l
  induction l with
  | nil => rfl
  | cons a l ih =>
    by_cases hp : p a <;> simp [List.filterMap_cons, hp, ih]

theorem range_filter_mod_eq (kl : Nat) (hkl : 0 < kl) :
    ∀ T : Nat, (List.range T).filter (fun j => j % kl = 0)
      = (List.range ((T + kl - 1) / kl)).map (· * kl) := by
  intro T
  induction T with
  | zero =>
    have h0 : (kl - 1) / kl = 0 := Nat.div_eq_of_lt (by omega)
    simp [h0]
  | succ T ih =>
    have hc' : (T + 1 + kl - 1) / kl = T / kl + 1 := by
      rw [show T + 1 + kl - 1 = T + kl by omega, Nat.add_div_right _ hkl]
    rw [List.range_succ, List.filter_append, ih, hc']
    by_cases hT : T % kl = 0
    · obtain ⟨q, hq⟩ := Nat.dvd_of_mod_eq_zero hT
      have hcT : (T + kl - 1) / kl = q := by
        rw [show T + kl - 1 = kl * q + (kl - 1) by omega, Nat.mul_add_div hkl,
          Nat.div_eq_of_lt (by omega), Nat.add_zero]
      have hTdiv : T / kl = q := by rw [hq, Nat.mul_div_cancel_left _ hkl]
      rw [hcT, hTdiv, List.range_succ, List.map_append, List.filter_singleton]
      simp [hT, hq, Nat.mul_comm]
    · have hnd : ¬ kl ∣ T := by
        intro hdvd
        obtain ⟨c, hc⟩ := hdvd
        apply hT
        rw [hc, Nat.mul_mod_right]
      have hT1 : 1 ≤ T := by
        rcases Nat.eq_zero_or_pos T with h | h
        · rw [h] at hT
          exact absurd (Nat.zero_mod kl) hT
        · exact h
      have hcT : (T + kl - 1) / kl = T / kl + 1 := by
        rw [show T + kl - 1 = (T - 1) + kl by omega, Nat.add_div_right _ hkl]
        congr 1
        conv_rhs => rw [show T = (T - 1) + 1 by omega]
        rw [Nat.succ_div, if_neg (by rw [show T - 1 + 1 = T by omega]; exact hnd),
          Nat.add_zero]
      rw [hcT, List.filter_singleton]
      simp [hT]

theorem cpsOf_eq_map {F : Type} (env : ProverEnv F) (D L : Int) (kl T : Nat)
    (hkl : 0 < kl) (y0 yF : F) (hok : iterE env D L T y0 = .ok yF) :
    cpsOf env D L kl T y0
      = (List.range ((T + kl - 1) / kl)).map (fun n => valAt env D L y0 (n * kl)) := by
  have hcong : ∀ j ∈ List.range T,
      (if j % kl = 0 then (iterE env D L j y0).toOption else none)
        = (if j % kl = 0 then some (valAt env D L y0 j) else none) := by
    intro j hj
    obtain ⟨w, hw⟩ := iterE_ok_mono env D L T y0 yF hok j
      (le_of_lt (List.mem_range.mp hj))
    rw [hw, valAt_spec env D L hw]
    rfl
  rw [cpsOf, List.filterMap_congr hcong,
    filterMap_if (fun j => j % kl = 0) (fun j => valAt env D L y0 j),
    range_filter_mod_eq kl hkl, List.map_map]
  rfl

/-! ### Cascade characterization of the try-block -/

theorem proveTry_fst_eq {F : Type} (env : ProverEnv F) (ch xs : List Nat)
    (yref : Option (List Nat)) (chk : Bool) (bits T P : Nat) (cb : Bool)
    (st : ThreadState) :
    (proveTry env ch xs yref chk bits T P cb st).1 = pureResult env ch xs yref chk bits T := by
  unfold proveTry pureResult
  rcases hcd : env.createDiscriminant ch bits with e | D <;> dsimp only
  rcases hroot : env.root4 (-D) with e | L <;> dsimp only
  rcases hdes : env.deserializeForm D xs with e | x <;> dsimp only
  rcases hfab : env.fromAbd x D with e | y0 <;> dsimp only
  by_cases hkl : (tunedPlan env T).1 * (tunedPlan env T).2 ≤ 0
  · rw [if_pos hkl, if_pos hkl]
  · rw [if_neg hkl, if_neg hkl]
    have hl := squaringLoop_fst env D L ((tunedPlan env T).1 * (tunedPlan env T).2).toNat
      T P cb T 0 y0 [] []
    rcases hw : squaringLoop env D L ((tunedPlan env T).1 * (tunedPlan env T).2).toNat
        T P cb T 0 y0 [] [] with ⟨r, tr⟩
    rw [hw] at hl
    rcases hit : iterE env D L T y0 with e | yF <;> rw [hit] at hl <;> dsimp only at hl <;>
      subst hl <;> dsimp only
    have hcps : ([] : List F) ++ (List.range T).filterMap
        (fun j => if (0 + j) % ((tunedPlan env T).1 * (tunedPlan env T).2).toNat = 0
          then (iterE env D L j y0).toOption else none)
        = cpsOf env D L ((tunedPlan env T).1 * (tunedPlan env T).2).toNat T y0 := by
      simp only [List.nil_append, Nat.zero_add, cpsOf]
    rw [hcps]
    rcases hg : env.generateWesolowski yF x D
        (cpsOf env D L ((tunedPlan env T).1 * (tunedPlan env T).2).toNat T y0) T
        (tunedPlan env T).1.toNat (tunedPlan env T).2.toNat with e | pf <;> dsimp only
    rcases hys : env.serializeForm yF (env.numBits D) with e | ySer <;> dsimp only
    rcases hps : env.serializeForm pf (env.numBits D) with e | pSer <;> dsimp only
    by_cases hempty : ySer = [] ∨ pSer = []
    · rw [if_pos hempty, if_pos hempty]
    · rw [if_neg hempty, if_neg hempty]
      by_cases hchk : chk = true
      · rw [if_pos hchk, if_pos hchk]
        cases yref with
        | none => rfl
        | some r =>
          dsimp only
          by_cases hr0 : r = []
          · rw [if_pos hr0, if_pos hr0]
          · rw [if_neg hr0, if_neg hr0]
            by_cases hlen : ySer.length ≠ r.length
            · rw [if_pos hlen, if_pos hlen]
            · rw [if_neg hlen, if_neg hlen]
              by_cases hne : ySer ≠ r
              · rw [if_pos hne, if_pos hne]
              · rw [if_neg hne, if_neg hne]
      · rw [if_neg hchk, if_neg hchk]

theorem pureResult_some_spec {F : Type} (env : ProverEnv F) (ch xs : List Nat)
    (yref : Option (List Nat)) (chk : Bool) (bits T : Nat) (out : List Nat)
    (h : pureResult env ch xs yref chk bits T = .ok (some out)) :
    ∃ D L x y0 yF pf ySer pSer,
      env.createDiscriminant ch bits = .ok D ∧
      env.root4 (-D) = .ok L ∧
      env.deserializeForm D xs = .ok x ∧
      env.fromAbd x D = .ok y0 ∧
      iterE env D L T y0 = .ok yF ∧
      env.generateWesolowski yF x D
        (cpsOf env D L ((tunedPlan env T).1 * (tunedPlan env T).2).toNat T y0) T
        (tunedPlan env T).1.toNat (tunedPlan env T).2.toNat = .ok pf ∧
      env.serializeForm yF (env.numBits D) = .ok ySer ∧
      env.serializeForm pf (env.numBits D) = .ok pSer ∧
      ySer ≠ [] ∧ pSer ≠ [] ∧ out = ySer ++ pSer ∧
      (chk = true → ∃ r, yref = some r ∧ r ≠ [] ∧ ySer = r) := by
  unfold pureResult at h
  rcases hcd : env.createDiscriminant ch bits with e | D <;> rw [hcd] at h
  · simp at h
  dsimp only at h
  rcases hroot : env.root4 (-D) with e | L <;> rw [hroot] at h
  · simp at h
  dsimp only at h
  rcases hdes : env.deserializeForm D xs with e | x <;> rw [hdes] at h
  · simp at h
  dsimp only at h
  rcases hfab : env.fromAbd x D with e | y0 <;> rw [hfab] at h
  · simp at h
  dsimp only at h
  by_cases hkl : (tunedPlan env T).1 * (tunedPlan env T).2 ≤ 0
  · rw [if_pos hkl] at h
    simp at h
  rw [if_neg hkl] at h
  rcases hit : iterE env D L T y0 with e | yF <;> rw [hit] at h
  · simp at h
  dsimp only at h
  rcases hg : env.generateWesolowski yF x D
      (cpsOf env D L ((tunedPlan env T).1 * (tunedPlan env T).2).toNat T y0) T
      (tunedPlan env T).1.toNat (tunedPlan env T).2.toNat with e | pf <;> rw [hg] at h
  · simp at h
  dsimp only at h
  rcases hys : env.serializeForm yF (env.numBits D) with e | ySer <;> rw [hys] at h
  · simp at h
  dsimp only at h
  rcases hps : env.serializeForm pf (env.numBits D) with e | pSer <;> rw [hps] at h
  · simp at h
  dsimp only at h
  by_cases hempty : ySer = [] ∨ pSer = []
  · rw [if_pos hempty] at h
    simp at h
  rw [if_neg hempty] at h
  push_neg at hempty
  by_cases hchk : chk = true
  · rw [if_pos hchk] at h
    cases yref with
    | none => simp at h
    | some r =>
      dsimp only at h
      by_cases hr0 : r = []
      · rw [if_pos hr0] at h
        simp at h
      rw [if_neg hr0] at h
      by_cases hlen : ySer.length ≠ r.length
      · rw [if_pos hlen] at h
        simp at h
      rw [if_neg hlen] at h
      by_cases hne : ySer ≠ r
      · rw [if_pos hne] at h
        simp at h
      rw [if_neg hne] at h
      simp only [Except.ok.injEq, Option.some.injEq] at h
      exact ⟨D, L, x, y0, yF, pf, ySer, pSer, rfl, hroot, hdes, hfab, hit, hg, hys, hps,
        hempty.1, hempty.2, h.symm, fun _ => ⟨r, rfl, hr0, not_not.mp hne⟩⟩
  · rw [if_neg hchk] at h
    simp only [Except.ok.injEq, Option.some.injEq] at h
    exact ⟨D, L, x, y0, yF, pf, ySer, pSer, rfl, hroot, hdes, hfab, hit, hg, hys, hps,
      hempty.1, hempty.2, h.symm, fun hc => absurd hc hchk⟩

theorem prove_result_eq {F : Type} (env : ProverEnv F) (ch xs yref : Option (List Nat))
    (chk : Bool) (bits T P : Nat) (cb : Bool) (st : ThreadState) (cfg : GlobalConfig) :
    (prove_one_weso_slow env ch xs yref chk bits T P cb st cfg).result
      = if byteArgMissing ch || byteArgMissing xs then none
        else if T = 0 ∨ bits = 0 then none
        else match pureResult env (ch.getD []) (xs.getD []) yref chk bits T with
          | .error _ => none
          | .ok r => r := by
  unfold prove_one_weso_slow
  by_cases h1 : (byteArgMissing ch || byteArgMissing xs) = true
  · rw [if_pos h1, if_pos h1]
  · rw [if_neg h1, if_neg h1]
    by_cases h2 : T = 0 ∨ bits = 0
    · rw [if_pos h2, if_pos h2]
    · rw [if_neg h2, if_neg h2]
      have hfst := proveTry_fst_eq env (ch.getD []) (xs.getD []) yref chk bits T P cb st
      rcases hw : proveTry env (ch.getD []) (xs.getD []) yref chk bits T P cb st
        with ⟨r, tr, ev, stOut⟩
      rw [hw] at hfst
      dsimp only at hfst
      rw [← hfst]
      cases r <;> rfl

/-! ### Tuner clamping, output shape, and thread-state characterization -/

theorem clampPos_one_le (n : Int) : 1 ≤ clampPos n := by
  unfold clampPos
  split <;> omega

theorem tunedPlan_guard_false {F : Type} (env : ProverEnv F) (T : Nat) :
    ¬ ((tunedPlan env T).1 * (tunedPlan env T).2 ≤ 0) := by
  have h1 : (0 : Int) < (tunedPlan env T).1 :=
    lt_of_lt_of_le zero_lt_one (clampPos_one_le _)
  have h2 : (0 : Int) < (tunedPlan env T).2 :=
    lt_of_lt_of_le zero_lt_one (clampPos_one_le _)
  exact not_le.mpr (mul_pos h1 h2)

theorem prove_output_eq {F : Type} (env : ProverEnv F) (ch xs yref : Option (List Nat))
    (chk : Bool) (bits T P : Nat) (cb : Bool) (st : ThreadState) (cfg : GlobalConfig) :
    prove_one_weso_slow env ch xs yref chk bits T P cb st cfg
      = if (byteArgMissing ch || byteArgMissing xs) = true then ⟨none, [], [], st⟩
        else if T = 0 ∨ bits = 0 then ⟨none, [], [], st⟩
        else
          ⟨match (proveTry env (ch.getD []) (xs.getD []) yref chk bits T P cb st).1 with
            | .error _ => none
            | .ok r => r,
           (proveTry env (ch.getD []) (xs.getD []) yref chk bits T P cb st).2.1,
           (proveTry env (ch.getD []) (xs.getD []) yref chk bits T P cb st).2.2.1,
           (proveTry env (ch.getD []) (xs.getD []) yref chk bits T P cb st).2.2.2⟩ := by
  unfold prove_one_weso_slow
  by_cases h1 : (byteArgMissing ch || byteArgMissing xs) = true
  · rw [if_pos h1, if_pos h1]
  · rw [if_neg h1, if_neg h1]
    by_cases h2 : T = 0 ∨ bits = 0
    · rw [if_pos h2, if_pos h2]
    · rw [if_neg h2, if_neg h2]
      rcases hw : proveTry env (ch.getD []) (xs.getD []) yref chk bits T P cb st
        with ⟨r, tr, ev, stOut⟩
      cases r <;> rfl

theorem proveTry_squared_spec {F : Type} (env : ProverEnv F) (ch xs : List Nat)
    (yref : Option (List Nat)) (chk : Bool) (bits T P : Nat) (cb : Bool) (st : ThreadState) :
    ProveEvent.squared ∈ (proveTry env ch xs yref chk bits T P cb st).2.2.1 →
      ∃ D L y0 yF cps,
        squaringLoop env D L ((tunedPlan env T).1 * (tunedPlan env T).2).toNat T P cb
            T 0 y0 [] []
          = (.ok (yF, cps), (proveTry env ch xs yref chk bits T P cb st).2.1) := by
  rcases hpt : proveTry env ch xs yref chk bits T P cb st with ⟨res, tr, ev, stOut⟩
  dsimp only
  intro h
  unfold proveTry at hpt
  rcases hcd : env.createDiscriminant ch bits with e | D <;> rw [hcd] at hpt <;>
    dsimp only at hpt
  · simp only [Prod.mk.injEq] at hpt
    rw [← hpt.2.2.1] at h
    simp at h
  rcases hroot : env.root4 (-D) with e | L <;> rw [hroot] at hpt <;> dsimp only at hpt
  · simp only [Prod.mk.injEq] at hpt
    rw [← hpt.2.2.1] at h
    simp at h
  rcases hdes : env.deserializeForm D xs with e | x <;> rw [hdes] at hpt <;>
    dsimp only at hpt
  · simp only [Prod.mk.injEq] at hpt
    rw [← hpt.2.2.1] at h
    simp at h
  rcases hfab : env.fromAbd x D with e | y0 <;> rw [hfab] at hpt <;> dsimp only at hpt
  · simp only [Prod.mk.injEq] at hpt
    rw [← hpt.2.2.1] at h
    simp at h
  rw [if_neg (tunedPlan_guard_false env T)] at hpt
  rcases hw : squaringLoop env D L ((tunedPlan env T).1 * (tunedPlan env T).2).toNat T P cb
      T 0 y0 [] [] with ⟨r, tr0⟩
  rw [hw] at hpt
  rcases r with e | ⟨yF, cps⟩ <;> dsimp only at hpt
  · simp only [Prod.mk.injEq] at hpt
    rw [← hpt.2.2.1] at h
    simp at h
  repeat' split at hpt
  all_goals
    simp only [Prod.mk.injEq] at hpt
    rw [hpt.2.1] at hw
    exact ⟨D, L, y0, yF, cps, hw⟩

/-! ### Progress-report closed form -/

theorem filterMap_progress (T P : Nat) :
    (List.range T).filterMap
        (fun j => if j + 1 = T ∨ (j + 1) % P = 0 then some (j + 1) else none)
      = (List.range' 1 T).filter (fun d => d = T ∨ d % P = 0) := by
  rw [filterMap_if (fun j => j + 1 = T ∨ (j + 1) % P = 0) (fun j => j + 1),
    List.range'_eq_map_range, List.filter_map]
  simp only [Function.comp_def, show ∀ j : Nat, 1 + j = j + 1 from fun j => Nat.add_comm 1 j]

theorem range1_filter_mod_length (P : Nat) :
    ∀ n : Nat, ((List.range' 1 n).filter (fun d => d % P = 0)).length = n / P := by
  intro n
  induction n with
  | zero => simp
  | succ n ih =>
    rw [List.range'_concat, show 1 + 1 * n = n + 1 by omega, List.filter_append,
      List.length_append, ih, List.filter_singleton]
    by_cases h : (n + 1) % P = 0
    · rw [Nat.succ_div, if_pos (Nat.dvd_iff_mod_eq_zero.mpr h)]
      simp [h]
    · rw [Nat.succ_div, if_neg (fun hd => h (Nat.dvd_iff_mod_eq_zero.mp hd))]
      simp [h]

theorem range1_filter_decomp (T P : Nat) (hT : 0 < T) :
    (List.range' 1 T).filter (fun d => d = T ∨ d % P = 0)
      = ((List.range' 1 (T - 1)).filter (fun d => d % P = 0)) ++ [T] := by
  have h1 : List.range' 1 T = List.range' 1 (T - 1) ++ [T] := by
    have h2 := @List.range'_concat 1 1 (T - 1)
    rw [show T - 1 + 1 = T by omega, show 1 + 1 * (T - 1) = T by omega] at h2
    exact h2
  rw [h1, List.filter_append, List.filter_singleton]
  congr 1
  · apply List.filter_congr
    intro d hd
    rw [List.mem_range'_1] at hd
    simp [show d ≠ T by omega]
  · simp

theorem progress_trace_props (T P : Nat) (hP : P ≠ 0) (hT : 0 < T) :
    ((List.range' 1 T).filter (fun d => d = T ∨ d % P = 0)).Pairwise (· < ·)
    ∧ ((List.range' 1 T).filter (fun d => d = T ∨ d % P = 0)).getLast? = some T
    ∧ ((List.range' 1 T).filter (fun d => d = T ∨ d % P = 0)).length = (T + P - 1) / P
    ∧ ∀ d, d ∈ (List.range' 1 T).filter (fun d => d = T ∨ d % P = 0)
        ↔ (0 < d ∧ d ≤ T ∧ (d = T ∨ d % P = 0)) := by
  have hP' : 0 < P := Nat.pos_of_ne_zero hP
  refine ⟨?_, ?_, ?_, ?_⟩
  · exact List.Pairwise.sublist (List.filter_sublist _) (List.pairwise_lt_range' 1 T)
  · rw [range1_filter_decomp T P hT, List.getLast?_concat]
  · rw [range1_filter_decomp T P hT, List.length_append,
      range1_filter_mod_length P (T - 1)]
    rw [show T + P - 1 = (T - 1) + P by omega, Nat.add_div_right _ hP']
    rfl
  · intro d
    constructor
    · intro h
      rw [List.mem_filter, List.mem_range'_1] at h
      obtain ⟨⟨ha, hb⟩, hc⟩ := h
      exact ⟨by omega, by omega, by simpa using hc⟩
    · rintro ⟨h1, h2, h3⟩
      rw [List.mem_filter, List.mem_range'_1]
      exact ⟨⟨by omega, by omega⟩, by simpa using h3⟩

theorem proveTry_state_spec {F : Type} (env : ProverEnv F) (ch xs : List Nat)
    (yref : Option (List Nat)) (chk : Bool) (bits T P : Nat) (cb : Bool) (st : ThreadState)
    {D L : Int} {x y0 : F}
    (hcd : env.createDiscriminant ch bits = .ok D)
    (hroot : env.root4 (-D) = .ok L)
    (hdes : env.deserializeForm D xs = .ok x)
    (hfab : env.fromAbd x D = .ok y0) :
    (proveTry env ch xs yref chk bits T P cb st).2.2.2 = stAfterTuning env T := by
  unfold proveTry
  rw [hcd]
  dsimp only
  rw [hroot]
  dsimp only
  rw [hdes]
  dsimp only
  rw [hfab]
  dsimp only
  rw [if_neg (tunedPlan_guard_false env T)]
  repeat' split
  all_goals rfl

theorem prove_state_spec {F : Type} (env : ProverEnv F) (ch xs yref : Option (List Nat))
    (chk : Bool) (bits T P : Nat) (cb : Bool) (st : ThreadState) (cfg : GlobalConfig)
    {D L : Int} {x y0 : F}
    (hch : byteArgMissing ch = false) (hxs : byteArgMissing xs = false)
    (hT : T ≠ 0) (hbits : bits ≠ 0)
    (hcd : env.createDiscriminant (ch.getD []) bits = .ok D)
    (hroot : env.root4 (-D) = .ok L)
    (hdes : env.deserializeForm D (xs.getD []) = .ok x)
    (hfab : env.fromAbd x D = .ok y0) :
    (prove_one_weso_slow env ch xs yref chk bits T P cb st cfg).state
      = stAfterTuning env T := by
  rw [prove_output_eq, if_neg (by simp [hch, hxs]),
    if_neg (show ¬ (T = 0 ∨ bits = 0) from fun h => h.elim hT hbits)]
  exact proveTry_state_spec env (ch.getD []) (xs.getD []) yref chk bits T P cb st
    hcd hroot hdes hfab

theorem proveTry_events_shape {F : Type} (env : ProverEnv F) (ch xs : List Nat)
    (yref : Option (List Nat)) (chk : Bool) (bits T P : Nat) (cb : Bool) (st : ThreadState) :
    (proveTry env ch xs yref chk bits T P cb st).2.2.1 = [ProveEvent.derive]
    ∨ (proveTry env ch xs yref chk bits T P cb st).2.2.1
        = [ProveEvent.derive, ProveEvent.deser]
    ∨ (proveTry env ch xs yref chk bits T P cb st).2.2.1
        = [ProveEvent.derive, ProveEvent.deser, ProveEvent.squared]
    ∨ (proveTry env ch xs yref chk bits T P cb st).2.2.1
        = [ProveEvent.derive, ProveEvent.deser, ProveEvent.squared, ProveEvent.proved]
    ∨ (proveTry env ch xs yref chk bits T P cb st).2.2.1
        = [ProveEvent.derive, ProveEvent.deser, ProveEvent.squared, ProveEvent.proved,
           ProveEvent.checked] := by
  unfold proveTry
  repeat' split
  all_goals simp

/-! ### Claim theorems -/

/-- C3: any two proving runs given identical external primitives, challenge
bytes, input-element bytes, reference/validation setting, discriminant
bit-size and iteration count T produce the same observable byte result,
independently of the progress cadence, the presence of a callback, the
thread-local diagnostic state, and the process-wide memory-budget /
stats configuration. -/
theorem prove_deterministic {F : Type} (env : ProverEnv F) (ch xs yref : Option (List Nat))
    (chk : Bool) (bits T : Nat) (P1 P2 : Nat) (cb1 cb2 : Bool) (st1 st2 : ThreadState)
    (cfg1 cfg2 : GlobalConfig) :
    (prove_one_weso_slow env ch xs yref chk bits T P1 cb1 st1 cfg1).result
      = (prove_one_weso_slow env ch xs yref chk bits T P2 cb2 st2 cfg2).result := by
  rw [prove_result_eq, prove_result_eq]

/-- C5: a null or empty challenge, a null or empty input-element buffer,
a zero iteration count, or a zero discriminant bit-size each make the
operation return the empty result immediately: the whole output equals
the validation-failure output — empty result, no progress reports, no
stage events (so no discriminant derivation, deserialization or squaring
was entered), thread state untouched. -/
theorem invalid_input_rejected {F : Type} (env : ProverEnv F) (ch xs yref : Option (List Nat))
    (chk : Bool) (bits T P : Nat) (cb : Bool) (st : ThreadState) (cfg : GlobalConfig)
    (h : byteArgMissing ch = true ∨ byteArgMissing xs = true ∨ T = 0 ∨ bits = 0) :
    prove_one_weso_slow env ch xs yref chk bits T P cb st cfg = ⟨none, [], [], st⟩ := by
  unfold prove_one_weso_slow
  by_cases h1 : (byteArgMissing ch || byteArgMissing xs) = true
  · rw [if_pos h1]
  · rw [if_neg h1]
    have h2 : T = 0 ∨ bits = 0 := by
      rcases h with h | h | h | h
      · exact absurd (by simp [h]) h1
      · exact absurd (by simp [h]) h1
      · exact Or.inl h
      · exact Or.inr h
    rw [if_pos h2]

theorem invalid_input_rejected_witness :
    (byteArgMissing (some [1]) = true ∨ byteArgMissing (some [3]) = true ∨ 0 = 0 ∨ 4 = 0)
    ∧ prove_one_weso_slow natEnv (some [1]) (some [3]) none false 4 0 7 true
        initThread initConfig = ⟨none, [], [], initThread⟩ :=
  ⟨by decide,
   invalid_input_rejected natEnv (some [1]) (some [3]) none false 4 0 7 true
     initThread initConfig (by decide)⟩

/-- C7: whenever the try-block of the proving operation evaluates to an
exception, the top-level operation catches it and returns the empty
result; by construction the operation itself is a total function and
never propagates an exception to its caller. -/
theorem exceptions_caught {F : Type} (env : ProverEnv F) (ch xs yref : Option (List Nat))
    (chk : Bool) (bits T P : Nat) (cb : Bool) (st : ThreadState) (cfg : GlobalConfig)
    (e : Unit)
    (he : (proveTry env (ch.getD []) (xs.getD []) yref chk bits T P cb st).1 = .error e) :
    (prove_one_weso_slow env ch xs yref chk bits T P cb st cfg).result = none := by
  rw [prove_result_eq]
  by_cases h1 : (byteArgMissing ch || byteArgMissing xs) = true
  · rw [if_pos h1]
  · rw [if_neg h1]
    by_cases h2 : T = 0 ∨ bits = 0
    · rw [if_pos h2]
    · rw [if_neg h2]
      rw [proveTry_fst_eq] at he
      rw [he]

theorem exceptions_caught_witness :
    (proveTry errEnv [1] [3] none false 4 3 0 false initThread).1 = .error ()
    ∧ (prove_one_weso_slow errEnv (some [1]) (some [3]) none false 4 3 0 false
        initThread initConfig).result = none :=
  ⟨rfl,
   exceptions_caught errEnv (some [1]) (some [3]) none false 4 3 0 false
     initThread initConfig () rfl⟩

/-- C8: for every iteration count T > 0 the plan actually used satisfies
k ≥ 1 and l ≥ 1 (each tuner output is clamped to 1 when non-positive),
hence k·l > 0, so the internal-failure guard condition k·l ≤ 0 tested by
the try-block is false and that empty-output branch is never taken. -/
theorem tuner_clamped {F : Type} (env : ProverEnv F) (T : Nat) (_hT : 0 < T) :
    1 ≤ (tunedPlan env T).1 ∧ 1 ≤ (tunedPlan env T).2
    ∧ 0 < (tunedPlan env T).1 * (tunedPlan env T).2
    ∧ ¬ ((tunedPlan env T).1 * (tunedPlan env T).2 ≤ 0) :=
  ⟨clampPos_one_le _, clampPos_one_le _,
   not_le.mp (tunedPlan_guard_false env T), tunedPlan_guard_false env T⟩

theorem tuner_clamped_witness :
    0 < 5
    ∧ (1 ≤ (tunedPlan natEnv 5).1 ∧ 1 ≤ (tunedPlan natEnv 5).2
      ∧ 0 < (tunedPlan natEnv 5).1 * (tunedPlan natEnv 5).2
      ∧ ¬ ((tunedPlan natEnv 5).1 * (tunedPlan natEnv 5).2 ≤ 0)) :=
  ⟨by decide, tuner_clamped natEnv 5 (by decide)⟩

/-- C6: on success the returned buffer is exactly the serialization of the
final element y (at the derived discriminant's bit size) followed by the
serialization of the Wesolowski proof element, both nonempty; hence an
empty serialization of either element can never coexist with a successful
(non-empty) result. -/
theorem output_concat {F : Type} (env : ProverEnv F) (ch xs yref : Option (List Nat))
    (chk : Bool) (bits T P : Nat) (cb : Bool) (st : ThreadState) (cfg : GlobalConfig)
    (out : List Nat)
    (h : (prove_one_weso_slow env ch xs yref chk bits T P cb st cfg).result = some out) :
    ∃ D L x y0 yF pf ySer pSer,
      env.createDiscriminant (ch.getD []) bits = .ok D ∧
      env.root4 (-D) = .ok L ∧
      env.deserializeForm D (xs.getD []) = .ok x ∧
      env.fromAbd x D = .ok y0 ∧
      iterE env D L T y0 = .ok yF ∧
      env.generateWesolowski yF x D
        (cpsOf env D L ((tunedPlan env T).1 * (tunedPlan env T).2).toNat T y0) T
        (tunedPlan env T).1.toNat (tunedPlan env T).2.toNat = .ok pf ∧
      env.serializeForm yF (env.numBits D) = .ok ySer ∧
      env.serializeForm pf (env.numBits D) = .ok pSer ∧
      ySer ≠ [] ∧ pSer ≠ [] ∧ out = ySer ++ pSer := by
  rw [prove_result_eq] at h
  by_cases h1 : (byteArgMissing ch || byteArgMissing xs) = true
  · rw [if_pos h1] at h
    exact absurd h (by simp)
  rw [if_neg h1] at h
  by_cases h2 : T = 0 ∨ bits = 0
  · rw [if_pos h2] at h
    exact absurd h (by simp)
  rw [if_neg h2] at h
  rcases hpure : pureResult env (ch.getD []) (xs.getD []) yref chk bits T with e | r <;>
    rw [hpure] at h <;> dsimp only at h
  · exact absurd h (by simp)
  subst h
  obtain ⟨D, L, x, y0, yF, pf, ySer, pSer, hcd, hroot, hdes, hfab, hit, hg, hys, hps,
    hy, hp, hout, -⟩ := pureResult_some_spec env (ch.getD []) (xs.getD []) yref chk bits T
      out hpure
  exact ⟨D, L, x, y0, yF, pf, ySer, pSer, hcd, hroot, hdes, hfab, hit, hg, hys, hps,
    hy, hp, hout⟩

theorem output_concat_witness :
    (prove_one_weso_slow natEnv (some [1]) (some [3]) none false 4 4 0 false
        initThread initConfig).result = some [209, 221]
    ∧ ∃ D L x y0 yF pf ySer pSer,
        natEnv.createDiscriminant ((some [1]).getD []) 4 = .ok D ∧
        natEnv.root4 (-D) = .ok L ∧
        natEnv.deserializeForm D ((some [3]).getD []) = .ok x ∧
        natEnv.fromAbd x D = .ok y0 ∧
        iterE natEnv D L 4 y0 = .ok yF ∧
        natEnv.generateWesolowski yF x D
          (cpsOf natEnv D L ((tunedPlan natEnv 4).1 * (tunedPlan natEnv 4).2).toNat 4 y0) 4
          (tunedPlan natEnv 4).1.toNat (tunedPlan natEnv 4).2.toNat = .ok pf ∧
        natEnv.serializeForm yF (natEnv.numBits D) = .ok ySer ∧
        natEnv.serializeForm pf (natEnv.numBits D) = .ok pSer ∧
        ySer ≠ [] ∧ pSer ≠ [] ∧ [209, 221] = ySer ++ pSer :=
  ⟨rfl,
   output_concat natEnv (some [1]) (some [3]) none false 4 4 0 false
     initThread initConfig [209, 221] rfl⟩

theorem prove_check_needs_ref {F : Type} (env : ProverEnv F) (ch xs yref : Option (List Nat))
    (bits T P : Nat) (cb : Bool) (st : ThreadState) (cfg : GlobalConfig)
    (h : yref = none ∨ yref = some []) :
    (prove_one_weso_slow env ch xs yref true bits T P cb st cfg).result = none := by
  rw [prove_result_eq]
  by_cases h1 : (byteArgMissing ch || byteArgMissing xs) = true
  · rw [if_pos h1]
  rw [if_neg h1]
  by_cases h2 : T = 0 ∨ bits = 0
  · rw [if_pos h2]
  rw [if_neg h2]
  rcases hpure : pureResult env (ch.getD []) (xs.getD []) yref true bits T with e | r
  · rfl
  rcases r with _ | out
  · rfl
  exfalso
  obtain ⟨D, L, x, y0, yF, pf, ySer, pSer, -, -, -, -, -, -, -, -, -, -, -, hchk⟩ :=
    pureResult_some_spec env (ch.getD []) (xs.getD []) yref true bits T out hpure
  obtain ⟨r, hr, hrne, -⟩ := hchk rfl
  rcases h with h | h <;> rw [h] at hr
  · exact Option.noConfusion hr
  · exact hrne (Option.some.injEq _ _ ▸ hr).symm

/-- C10: every streaming entry point passes check_y_ref = true into the
core operation, and the validation block rejects a null or zero-length
reference buffer, so a streaming call with a missing reference encoding
always returns the empty result. -/
theorem streaming_needs_reference {F : Type} (env : ProverEnv F)
    (ch xs yref : Option (List Nat)) (bits T P : Nat) (cb : Bool)
    (st : ThreadState) (cfg : GlobalConfig)
    (h : yref = none ∨ yref = some []) :
    (chiavdf_prove_one_weso_fast_streaming env ch xs yref bits T st cfg).result = none
    ∧ (chiavdf_prove_one_weso_fast_streaming_with_progress env ch xs yref bits T P cb
        st cfg).result = none
    ∧ (chiavdf_prove_one_weso_fast_streaming_getblock_opt env ch xs yref bits T
        st cfg).result = none
    ∧ (chiavdf_prove_one_weso_fast_streaming_getblock_opt_with_progress env ch xs yref
        bits T P cb st cfg).result = none :=
  ⟨prove_check_needs_ref env ch xs yref bits T 0 false st cfg h,
   prove_check_needs_ref env ch xs yref bits T P cb st cfg h,
   prove_check_needs_ref env ch xs yref bits T 0 false st cfg h,
   prove_check_needs_ref env ch xs yref bits T P cb st cfg h⟩

theorem streaming_needs_reference_witness :
    ((none : Option (List Nat)) = none ∨ (none : Option (List Nat)) = some [])
    ∧ ((chiavdf_prove_one_weso_fast_streaming natEnv (some [1]) (some [3]) none 4 2
          initThread initConfig).result = none
      ∧ (chiavdf_prove_one_weso_fast_streaming_with_progress natEnv (some [1]) (some [3])
          none 4 2 1 true initThread initConfig).result = none
      ∧ (chiavdf_prove_one_weso_fast_streaming_getblock_opt natEnv (some [1]) (some [3])
          none 4 2 initThread initConfig).result = none
      ∧ (chiavdf_prove_one_weso_fast_streaming_getblock_opt_with_progress natEnv
          (some [1]) (some [3]) none 4 2 1 true initThread initConfig).result = none) :=
  ⟨Or.inl rfl,
   streaming_needs_reference natEnv (some [1]) (some [3]) none 4 2 1 true
     initThread initConfig (Or.inl rfl)⟩

/-- C9: once a proving call on a thread has reached parameter selection
(inputs valid and the pre-loop derivations succeeded), querying the last
streaming parameters on that thread's state with non-null out-pointers
returns true together with exactly the clamped (k, l) plan of that call
and retuned = false; a query with any null out-pointer returns false, a
query on a thread that has made no such call returns false, and the
streaming-stats query always reports unavailable (false). -/
theorem streaming_diagnostics {F : Type} (env : ProverEnv F) (ch xs yref : Option (List Nat))
    (chk : Bool) (bits T P : Nat) (cb : Bool) (st : ThreadState) (cfg : GlobalConfig)
    {D L : Int} {x y0 : F}
    (hch : byteArgMissing ch = false) (hxs : byteArgMissing xs = false)
    (hT : T ≠ 0) (hbits : bits ≠ 0)
    (hcd : env.createDiscriminant (ch.getD []) bits = .ok D)
    (hroot : env.root4 (-D) = .ok L)
    (hdes : env.deserializeForm D (xs.getD []) = .ok x)
    (hfab : env.fromAbd x D = .ok y0) :
    chiavdf_get_last_streaming_parameters
        (prove_one_weso_slow env ch xs yref chk bits T P cb st cfg).state false false false
      = (true, some ((tunedPlan env T).1.toNat, (tunedPlan env T).2.toNat, false))
    ∧ (∀ (s : ThreadState) (b1 b2 b3 : Bool), (b1 || b2 || b3) = true →
        chiavdf_get_last_streaming_parameters s b1 b2 b3 = (false, none))
    ∧ (∀ b1 b2 b3 : Bool, chiavdf_get_last_streaming_parameters initThread b1 b2 b3
        = (false, none))
    ∧ (∀ s : ThreadState, chiavdf_get_last_streaming_stats s = false) := by
  refine ⟨?_, ?_, ?_, fun s => rfl⟩
  · rw [prove_state_spec env ch xs yref chk bits T P cb st cfg hch hxs hT hbits
      hcd hroot hdes hfab]
    rfl
  · intro s b1 b2 b3 hb
    unfold chiavdf_get_last_streaming_parameters
    rw [if_pos hb]
  · intro b1 b2 b3
    unfold chiavdf_get_last_streaming_parameters
    by_cases hb : (b1 || b2 || b3) = true
    · rw [if_pos hb]
    · rw [if_neg hb]
      rfl

theorem streaming_diagnostics_witness :
    (byteArgMissing (some [1]) = false ∧ byteArgMissing (some [3]) = false
      ∧ (3 : Nat) ≠ 0 ∧ (4 : Nat) ≠ 0
      ∧ natEnv.createDiscriminant ((some [1]).getD []) 4 = .ok (-7)
      ∧ natEnv.root4 (-(-7)) = .ok 1
      ∧ natEnv.deserializeForm (-7) ((some [3]).getD []) = .ok 3
      ∧ natEnv.fromAbd 3 (-7) = .ok 3)
    ∧ (chiavdf_get_last_streaming_parameters
          (prove_one_weso_slow natEnv (some [1]) (some [3]) none false 4 3 0 false
            initThread initConfig).state false false false
        = (true, some ((tunedPlan natEnv 3).1.toNat, (tunedPlan natEnv 3).2.toNat, false))
      ∧ (∀ (s : ThreadState) (b1 b2 b3 : Bool), (b1 || b2 || b3) = true →
          chiavdf_get_last_streaming_parameters s b1 b2 b3 = (false, none))
      ∧ (∀ b1 b2 b3 : Bool, chiavdf_get_last_streaming_parameters initThread b1 b2 b3
          = (false, none))
      ∧ (∀ s : ThreadState, chiavdf_get_last_streaming_stats s = false)) :=
  ⟨⟨rfl, rfl, by decide, by decide, rfl, rfl, rfl, rfl⟩,
   @streaming_diagnostics Nat natEnv (some [1]) (some [3]) none false 4 3 0 false
     initThread initConfig (-7) 1 3 3 rfl rfl (by decide) (by decide) rfl rfl rfl rfl⟩

/-- C2: for a proving run whose squaring loop completes with plan (k, l)
(each at least 1, as every used plan is) and iteration count T > 0, the
recorded checkpoint sequence has exactly ceil(T / (k·l)) entries, entry 0
is the loop's initial element, entry n is the initial element squared and
reduced exactly n·k·l times, and (absent 64-bit wrap-around of the
ceiling computation, i.e. when T + k·l ≤ 2^64) this entry count equals
the allocated size_vec. -/
theorem checkpoint_invariant {F : Type} (env : ProverEnv F) (D L : Int) (k l T P : Nat)
    (cb : Bool) (y0 yF : F) (cps : List F) (tr : List Nat)
    (hk : 1 ≤ k) (hl : 1 ≤ l) (hT : 0 < T)
    (hrun : squaringLoop env D L (k * l) T P cb T 0 y0 [] [] = (.ok (yF, cps), tr)) :
    cps.length = (T + k * l - 1) / (k * l)
    ∧ cps.head? = some y0
    ∧ (∀ n (hn : n < cps.length), iterE env D L (n * (k * l)) y0 = .ok (cps.get ⟨n, hn⟩))
    ∧ (T + k * l ≤ 2 ^ 64 → cps.length = sizeVec T (k * l)) := by
  have hkl : 0 < k * l := Nat.mul_pos hk hl
  have hfst := squaringLoop_fst env D L (k * l) T P cb T 0 y0 [] []
  rw [hrun] at hfst
  rcases hit : iterE env D L T y0 with e | yF' <;> rw [hit] at hfst <;> dsimp only at hfst
  · exact absurd hfst (by simp)
  simp only [Except.ok.injEq, Prod.mk.injEq, List.nil_append] at hfst
  obtain ⟨hyf, hcps⟩ := hfst
  have hcps' : cps = cpsOf env D L (k * l) T y0 := by
    rw [hcps, cpsOf]
    apply List.filterMap_congr
    intro j _
    rw [Nat.zero_add]
  rw [cpsOf_eq_map env D L (k * l) T hkl y0 yF' hit] at hcps'
  subst hcps'
  have hlen : ((List.range ((T + k * l - 1) / (k * l))).map
      (fun n => valAt env D L y0 (n * (k * l)))).length = (T + k * l - 1) / (k * l) := by
    rw [List.length_map, List.length_range]
  refine ⟨hlen, ?_, ?_, ?_⟩
  · have hc1 : 1 ≤ (T + k * l - 1) / (k * l) := (Nat.one_le_div_iff hkl).mpr (by omega)
    obtain ⟨c', hc'⟩ : ∃ c', (T + k * l - 1) / (k * l) = c' + 1 :=
      ⟨(T + k * l - 1) / (k * l) - 1, by omega⟩
    rw [hc', List.range_succ_eq_map]
    simp [valAt, iterE, Except.toOption]
  · intro n hn
    rw [hlen] at hn
    have hle : n * (k * l) ≤ T := by
      have h1 : (n + 1) * (k * l) ≤ ((T + k * l - 1) / (k * l)) * (k * l) :=
        Nat.mul_le_mul_right _ (by omega)
      have h2 : ((T + k * l - 1) / (k * l)) * (k * l) ≤ T + k * l - 1 :=
        Nat.div_mul_le_self _ _
      have h3 : (n + 1) * (k * l) = n * (k * l) + k * l := by ring
      omega
    obtain ⟨w, hw⟩ := iterE_ok_mono env D L T y0 yF' hit (n * (k * l)) hle
    rw [hw]
    congr 1
    rw [List.get_eq_getElem, List.getElem_map, List.getElem_range,
      valAt_spec env D L hw]
  · intro h64
    rw [hlen, sizeVec, Nat.mod_eq_of_lt (by omega)]

theorem checkpoint_invariant_witness :
    (1 ≤ 2 ∧ 1 ≤ 2 ∧ 0 < 8
      ∧ squaringLoop natEnv (-7) 1 (2 * 2) 8 0 false 8 0 3 [] []
          = (.ok (521, [3, 721]), []))
    ∧ (([3, 721] : List Nat).length = (8 + 2 * 2 - 1) / (2 * 2)
      ∧ ([3, 721] : List Nat).head? = some 3
      ∧ (∀ n (hn : n < ([3, 721] : List Nat).length),
          iterE natEnv (-7) 1 (n * (2 * 2)) 3 = .ok (([3, 721] : List Nat).get ⟨n, hn⟩))
      ∧ (8 + 2 * 2 ≤ 2 ^ 64 → ([3, 721] : List Nat).length = sizeVec 8 (2 * 2))) :=
  ⟨⟨by decide, by decide, by decide, rfl⟩,
   checkpoint_invariant natEnv (-7) 1 2 2 8 0 false 3 521 [3, 721] []
     (by decide) (by decide) (by decide) rfl⟩

/-- C4: for a run with progress cadence P > 0 and a callback present whose
squaring phase completes (the squared stage event was recorded), the
sequence of reported counts is strictly increasing, its final entry is
exactly T, it has exactly ceil(T / P) entries, and a count d is reported
iff 1 ≤ d ≤ T and d = T or d is a multiple of P. -/
theorem progress_reports {F : Type} (env : ProverEnv F) (ch xs yref : Option (List Nat))
    (chk : Bool) (bits T P : Nat) (cb : Bool) (st : ThreadState) (cfg : GlobalConfig)
    (hP : P ≠ 0) (hcb : cb = true)
    (hsq : ProveEvent.squared
      ∈ (prove_one_weso_slow env ch xs yref chk bits T P cb st cfg).events) :
    (prove_one_weso_slow env ch xs yref chk bits T P cb st cfg).trace.Pairwise (· < ·)
    ∧ (prove_one_weso_slow env ch xs yref chk bits T P cb st cfg).trace.getLast? = some T
    ∧ (prove_one_weso_slow env ch xs yref chk bits T P cb st cfg).trace.length
        = (T + P - 1) / P
    ∧ ∀ d, d ∈ (prove_one_weso_slow env ch xs yref chk bits T P cb st cfg).trace
        ↔ (0 < d ∧ d ≤ T ∧ (d = T ∨ d % P = 0)) := by
  rw [prove_output_eq] at hsq ⊢
  by_cases h1 : (byteArgMissing ch || byteArgMissing xs) = true
  · rw [if_pos h1] at hsq
    simp at hsq
  rw [if_neg h1] at hsq ⊢
  by_cases h2 : T = 0 ∨ bits = 0
  · rw [if_pos h2] at hsq
    simp at hsq
  rw [if_neg h2] at hsq ⊢
  dsimp only at hsq ⊢
  obtain ⟨D, L, y0, yF, cps, hloop⟩ :=
    proveTry_squared_spec env (ch.getD []) (xs.getD []) yref chk bits T P cb st hsq
  have htr := squaringLoop_trace env D L ((tunedPlan env T).1 * (tunedPlan env T).2).toNat
    T P cb T 0 y0 yF [] cps [] _ hloop
  simp only [List.nil_append, Nat.zero_add] at htr
  have hcond : ∀ j : Nat,
      (cb = true ∧ P ≠ 0 ∧ (j + 1 = T ∨ (j + 1) % P = 0)) = (j + 1 = T ∨ (j + 1) % P = 0) :=
    fun j => by simp [hcb, hP]
  simp only [hcond] at htr
  rw [filterMap_progress] at htr
  have hT : 0 < T := Nat.pos_of_ne_zero (fun h => h2 (Or.inl h))
  rw [htr]
  exact progress_trace_props T P hP hT

theorem progress_reports_witness :
    ((2 : Nat) ≠ 0 ∧ true = true
      ∧ ProveEvent.squared ∈ (prove_one_weso_slow natEnv (some [1]) (some [3]) none false
          4 5 2 true initThread initConfig).events)
    ∧ ((prove_one_weso_slow natEnv (some [1]) (some [3]) none false 4 5 2 true
          initThread initConfig).trace.Pairwise (· < ·)
      ∧ (prove_one_weso_slow natEnv (some [1]) (some [3]) none false 4 5 2 true
          initThread initConfig).trace.getLast? = some 5
      ∧ (prove_one_weso_slow natEnv (some [1]) (some [3]) none false 4 5 2 true
          initThread initConfig).trace.length = (5 + 2 - 1) / 2
      ∧ ∀ d, d ∈ (prove_one_weso_slow natEnv (some [1]) (some [3]) none false 4 5 2 true
          initThread initConfig).trace ↔ (0 < d ∧ d ≤ 5 ∧ (d = 5 ∨ d % 2 = 0))) :=
  ⟨⟨by decide, rfl, by decide⟩,
   progress_reports natEnv (some [1]) (some [3]) none false 4 5 2 true
     initThread initConfig (by decide) rfl (by decide)⟩

/-- C1 counterexample: a run with result validation enabled and a
mismatching reference (computed y serializes to [81], reference is [9],
equal lengths) fails with empty output, yet its stage event log shows the
Wesolowski proof element was generated (proved) before the reference
comparison ran (checked): the comparison does not run before proof
construction and a proof element is constructed on the mismatch path. -/
theorem validation_order_cex :
    (prove_one_weso_slow natEnv (some [1]) (some [3]) (some [9]) true 4 2 0 false
        initThread initConfig).result = none
    ∧ (prove_one_weso_slow natEnv (some [1]) (some [3]) (some [9]) true 4 2 0 false
        initThread initConfig).events
      = [ProveEvent.derive, ProveEvent.deser, ProveEvent.squared, ProveEvent.proved,
         ProveEvent.checked]
    ∧ ProveEvent.proved ∈ (prove_one_weso_slow natEnv (some [1]) (some [3]) (some [9])
        true 4 2 0 false initThread initConfig).events := by
  exact ⟨rfl, rfl, by decide⟩

/-- C1 (amended): with result validation enabled, the reference comparison
runs strictly after the T squarings complete but also strictly after the
Wesolowski proof element is constructed and serialized (whenever the
comparison runs, the event order is derive, deser, squared, proved,
checked); on any length or content mismatch the operation fails with
empty output and the already-constructed proof is discarded — any
successful validated run's output consists of exactly the reference bytes
followed by the (nonempty) proof bytes. -/
theorem validation_after_proof {F : Type} (env : ProverEnv F) (ch xs yref : Option (List Nat))
    (bits T P : Nat) (cb : Bool) (st : ThreadState) (cfg : GlobalConfig) :
    (ProveEvent.checked
        ∈ (prove_one_weso_slow env ch xs yref true bits T P cb st cfg).events →
      (prove_one_weso_slow env ch xs yref true bits T P cb st cfg).events
        = [ProveEvent.derive, ProveEvent.deser, ProveEvent.squared, ProveEvent.proved,
           ProveEvent.checked])
    ∧ (∀ out, (prove_one_weso_slow env ch xs yref true bits T P cb st cfg).result = some out →
        ∃ r ps, yref = some r ∧ r ≠ [] ∧ ps ≠ [] ∧ out = r ++ ps) := by
  constructor
  · intro hin
    rw [prove_output_eq] at hin ⊢
    by_cases h1 : (byteArgMissing ch || byteArgMissing xs) = true
    · rw [if_pos h1] at hin
      simp at hin
    rw [if_neg h1] at hin ⊢
    by_cases h2 : T = 0 ∨ bits = 0
    · rw [if_pos h2] at hin
      simp at hin
    rw [if_neg h2] at hin ⊢
    dsimp only at hin ⊢
    rcases proveTry_events_shape env (ch.getD []) (xs.getD []) yref true bits T P cb st
      with h | h | h | h | h <;> rw [h] at hin ⊢
    · simp at hin
    · simp at hin
    · simp at hin
    · simp at hin
  · intro out hout
    rw [prove_result_eq] at hout
    by_cases h1 : (byteArgMissing ch || byteArgMissing xs) = true
    · rw [if_pos h1] at hout
      exact absurd hout (by simp)
    rw [if_neg h1] at hout
    by_cases h2 : T = 0 ∨ bits = 0
    · rw [if_pos h2] at hout
      exact absurd hout (by simp)
    rw [if_neg h2] at hout
    rcases hpure : pureResult env (ch.getD []) (xs.getD []) yref true bits T with e | r <;>
      rw [hpure] at hout <;> dsimp only at hout
    · exact absurd hout (by simp)
    subst hout
    obtain ⟨D, L, x, y0, yF, pf, ySer, pSer, -, -, -, -, -, -, -, -, -, hpne, hcat, hchk⟩ :=
      pureResult_some_spec env (ch.getD []) (xs.getD []) yref true bits T out hpure
    obtain ⟨r, hr, hrne, hser⟩ := hchk rfl
    exact ⟨r, pSer, hr, hrne, hpne, by rw [hcat, hser]⟩

theorem validation_after_proof_witness :
    ProveEvent.checked ∈ (prove_one_weso_slow natEnv (some [1]) (some [3]) (some [81])
        true 4 2 0 false initThread initConfig).events
    ∧ (prove_one_weso_slow natEnv (some [1]) (some [3]) (some [81]) true 4 2 0 false
        initThread initConfig).events
      = [ProveEvent.derive, ProveEvent.deser, ProveEvent.squared, ProveEvent.proved,
         ProveEvent.checked] :=
  ⟨by decide,
   (validation_after_proof natEnv (some [1]) (some [3]) (some [81]) 4 2 0 false
     initThread initConfig).1 (by decide)⟩
